import Mathlib

/-!
Verification of the nm-wifi session core: a shallow embedding of the
network-catalog reconciliation (src/network.rs `scan_wifi_networks`,
duplicated in src/main.rs), the session state machine (`App` in
src/types.rs and src/main.rs) and the event-loop key handlers
(`run_app` in src/main.rs), together with proofs of the spec's claims
about them.

Modelling conventions:
* Rust `u8`/`u32` fields become `Nat` (no arithmetic in the embedded code
  can overflow: the only operations are comparisons).
* `std::time::Instant` is modelled as an abstract `Nat` timestamp passed
  in wherever the code calls `Instant::now()`.
* `ratatui::ListState` is modelled by its only observed component, the
  `selected()` index (`Option Nat`).
* The `HashMap<String, WifiNetwork>` used for deduplication is modelled
  as a list with unique `ssid`s updated in place; `into_values()` has an
  unspecified order in Rust, the model uses insertion order.  The Rust
  stable `sort_by` is modelled by `List.insertionSort` (also stable); all
  properties proved are insensitive to the pre-sort order.
* The external backend (D-Bus, nmcli) is an input: a scan cycle is a list
  of raw access-point observations plus the currently associated ssid;
  connect/disconnect outcomes are `Except String Unit` values.
-/

/-- One raw access-point observation as read in `scan_wifi_networks`
(ssid, security flags already collapsed to a Bool, strength, frequency). -/
structure RawObservation where
  ssid : String
  secured : Bool
  signal_strength : Nat
  frequency : Nat
deriving DecidableEq, Repr

/-- `WifiNetwork` from src/types.rs. -/
structure WifiNetwork where
  ssid : String
  signal_strength : Nat
  secured : Bool
  frequency : Nat
  connected : Bool
deriving DecidableEq, Repr

/-- Build the `WifiNetwork` record for one observation, tagging
`connected = (connected_ssid.as_ref() == Some(&ssid))`. -/
def toNetwork (cs : Option String) (o : RawObservation) : WifiNetwork :=
  { ssid := o.ssid
    signal_strength := o.signal_strength
    secured := o.secured
    frequency := o.frequency
    connected := decide (cs = some o.ssid) }

/-- The `networks` vector built by the scan loop: observations with an
empty ssid are skipped (`if !ssid.is_empty()`), the rest are tagged. -/
def observedNetworks (cs : Option String) (obs : List RawObservation) :
    List WifiNetwork :=
  (obs.filter (fun o => !o.ssid.isEmpty)).map (toNetwork cs)

/-- One step of the `unique_networks` hash-map loop: on a hit for
`network.ssid`, replace only when `network.frequency > existing.frequency`;
on a miss, insert. -/
def updateUnique : List WifiNetwork → WifiNetwork → List WifiNetwork
  | [], n => [n]
  | m :: rest, n =>
    if m.ssid = n.ssid then
      (if m.frequency < n.frequency then n else m) :: rest
    else
      m :: updateUnique rest n

/-- The deduplication fold over the observed networks. -/
def dedupByFrequency (l : List WifiNetwork) : List WifiNetwork :=
  l.foldl updateUnique []

/-- The sort comparator of `scan_wifi_networks` as a `≤`-style Bool:
`a` may come before `b` iff the comparator does not return `Greater`.
`(true, false) → Less`, `(false, true) → Greater`, otherwise
`b.signal_strength.cmp(&a.signal_strength)`. -/
def netLEb (a b : WifiNetwork) : Bool :=
  match a.connected, b.connected with
  | true, false => true
  | false, true => false
  | _, _ => decide (b.signal_strength ≤ a.signal_strength)

/-- Propositional form of the comparator. -/
def netLE (a b : WifiNetwork) : Prop := netLEb a b = true

instance : DecidableRel netLE :=
  fun a b => inferInstanceAs (Decidable (netLEb a b = true))

instance : IsTotal WifiNetwork netLE :=
  ⟨fun a b => by
    unfold netLE netLEb
    cases a.connected <;> cases b.connected <;> simp <;> omega⟩

instance : IsTrans WifiNetwork netLE :=
  ⟨fun a b c => by
    unfold netLE netLEb
    cases a.connected <;> cases b.connected <;> cases c.connected <;>
      simp <;> omega⟩

/-- The pure core of `scan_wifi_networks`: filter and tag the raw
observations, deduplicate by ssid keeping the highest frequency, sort
connected-first then by descending signal strength. -/
def reconcile (cs : Option String) (obs : List RawObservation) :
    List WifiNetwork :=
  List.insertionSort netLE (dedupByFrequency (observedNetworks cs obs))

/-- The catalog minus its connected head, if any: the entries the spec
calls "the remaining entries". -/
def remaining : List WifiNetwork → List WifiNetwork
  | [] => []
  | h :: t => if h.connected then t else h :: t

/-- `AppState` from src/types.rs. -/
inductive AppState where
  | Scanning
  | NetworkList
  | PasswordInput
  | Connecting
  | Disconnecting
  | ConnectionResult
  | Help
  | NetworkDetails
deriving DecidableEq, Repr

/-- `App` from src/types.rs; `list_selected` is `list_state.selected()`. -/
structure App where
  networks : List WifiNetwork
  selected_index : Nat
  list_selected : Option Nat
  state : AppState
  password_input : String
  selected_network : Option WifiNetwork
  status_message : String
  should_quit : Bool
  connection_success : Bool
  connection_error : Option String
  is_disconnect_operation : Bool
  adapter_info : Option String
  network_count : Nat
  last_scan_time : Option Nat
  connection_start_time : Option Nat
  password_visible : Bool
deriving DecidableEq, Repr

/-- `App::new()`. -/
def App.new : App :=
  { networks := []
    selected_index := 0
    list_selected := some 0
    state := .Scanning
    password_input := ""
    selected_network := none
    status_message := "Scanning for networks..."
    should_quit := false
    connection_success := false
    connection_error := none
    is_disconnect_operation := false
    adapter_info := none
    network_count := 0
    last_scan_time := none
    connection_start_time := none
    password_visible := false }

/-- `App::next()`. -/
def App.next (a : App) : App :=
  if a.networks.isEmpty then a
  else
    let i :=
      match a.list_selected with
      | some i => if a.networks.length - 1 ≤ i then 0 else i + 1
      | none => 0
    { a with list_selected := some i, selected_index := i }

/-- `App::previous()`. -/
def App.previous (a : App) : App :=
  if a.networks.isEmpty then a
  else
    let i :=
      match a.list_selected with
      | some i => if i = 0 then a.networks.length - 1 else i - 1
      | none => 0
    { a with list_selected := some i, selected_index := i }

/-- `App::select_network()`; `now` stands for `Instant::now()` in the
open-network branch. -/
def App.select_network (a : App) (now : Nat) : App :=
  match a.networks.get? a.selected_index with
  | some n =>
    let a1 :=
      if n.connected then
        { a with
            state := .Disconnecting
            status_message := "Disconnecting from " ++ n.ssid ++ "..." }
      else if n.secured then
        { a with state := .PasswordInput, password_input := "" }
      else
        { a with
            state := .Connecting
            connection_start_time := some now
            status_message := "Connecting to " ++ n.ssid ++ "..." }
    { a1 with
        is_disconnect_operation := decide (a1.state = AppState.Disconnecting)
        selected_network := some n }
  | none =>
    { a with
        is_disconnect_operation := decide (a.state = AppState.Disconnecting) }

/-- `App::add_char_to_password()`. -/
def App.add_char_to_password (a : App) (c : Char) : App :=
  { a with password_input := a.password_input.push c }

/-- `App::remove_char_from_password()` (`String::pop`). -/
def App.remove_char_from_password (a : App) : App :=
  { a with password_input := a.password_input.dropRight 1 }

/-- `App::confirm_password()`. -/
def App.confirm_password (a : App) (now : Nat) : App :=
  let a1 := { a with state := AppState.Connecting
                     connection_start_time := some now }
  match a1.selected_network with
  | some n =>
    { a1 with status_message := "Connecting to " ++ n.ssid ++ "..." }
  | none => a1

/-- `App::quit()`. -/
def App.quit (a : App) : App := { a with should_quit := true }

/-- `App::back_to_network_list()`; `selected_network` is deliberately
kept. -/
def App.back_to_network_list (a : App) : App :=
  { a with
      state := .NetworkList
      connection_success := false
      connection_error := none
      password_input := ""
      password_visible := false
      is_disconnect_operation := false
      connection_start_time := none }

/-- `Iterator::position` on a list of networks. -/
def position (p : WifiNetwork → Bool) : List WifiNetwork → Option Nat
  | [] => none
  | x :: xs => if p x then some 0 else (position p xs).map (· + 1)

/-- `App::update_selection_after_rescan()`. -/
def App.update_selection_after_rescan (a : App) : App :=
  let a1 :=
    match a.selected_network with
    | some sn =>
      match position (fun n => n.ssid == sn.ssid) a.networks with
      | some i => { a with selected_index := i, list_selected := some i }
      | none => { a with selected_index := 0, list_selected := some 0 }
    | none => a
  { a1 with selected_network := none }

/-- Logical key intents routed by `run_app`. -/
inductive Key where
  | esc
  | enter
  | up
  | down
  | backspace
  | tab
  | char (c : Char)
deriving DecidableEq, Repr

/-- The `AppState::NetworkList` arm of the key match in `run_app`
(src/main.rs lines 2189-2227). -/
def handleNetworkListKey (a : App) (now : Nat) : Key → App
  | .esc => a.quit
  | .char 'q' => a.quit
  | .char 'j' => a.next
  | .down => a.next
  | .char 'k' => a.previous
  | .up => a.previous
  | .enter => a.select_network now
  | .char 'c' => a.select_network now
  | .char 'd' =>
    match a.networks.get? a.selected_index with
    | some n =>
      if n.connected then
        { a with
            is_disconnect_operation := true
            state := .Disconnecting
            connection_start_time := some now
            status_message := "Disconnecting from " ++ n.ssid ++ "..."
            selected_network := some n }
      else a
    | none => a
  | .char 'r' =>
    { a with
        state := .Scanning
        status_message := "Scanning for networks..."
        networks := [] }
  | .char 'h' => { a with state := .Help }
  | .char 'i' =>
    if a.networks.isEmpty then a else { a with state := .NetworkDetails }
  | _ => a

/-- The `AppState::ConnectionResult` arm of the key match in `run_app`
(src/main.rs lines 2260-2272): Enter acknowledges the result. -/
def handleConnectionResultKey (a : App) : Key → App
  | .char 'q' => a.quit
  | .esc => a.quit
  | .enter =>
    let a1 := a.back_to_network_list
    { a1 with
        state := .Scanning
        status_message := "Scanning for networks..."
        networks := [] }
  | _ => a

/-- The scan-completion step of the `Scanning` arm of `run_app`
(src/main.rs lines 2077-2110), with the backend scan result, the adapter
lookup result and the current time as inputs. -/
def scanStep (a : App) (scanResult : List WifiNetwork)
    (adapter : Option String) (now : Nat) : App :=
  let previous_count := a.networks.length
  let a1 := { a with
                networks := scanResult
                network_count := scanResult.length
                last_scan_time := some now }
  let a2 :=
    if a1.adapter_info.isNone then { a1 with adapter_info := adapter } else a1
  let a3 :=
    if previous_count = 0 ∧ a2.networks.isEmpty = false then
      if a2.selected_network.isSome then a2.update_selection_after_rescan
      else { a2 with list_selected := some 0 }
    else a2
  if a3.networks.isEmpty then
    { a3 with status_message := "Scanning for WiFi networks..." }
  else
    { a3 with
        state := .NetworkList
        status_message :=
          "Found " ++ toString a3.networks.length
            ++ " network(s). Ready to connect!" }

/-- What `connect_to_network` does before any nmcli call is issued. -/
inductive ConnectAction where
  | rejectMissingCredential
  | dispatchSecured (ssid : String) (psk : String)
  | dispatchOpen (ssid : String)
deriving DecidableEq, Repr

/-- The dispatch decision of `connect_to_network` (src/network.rs lines
160-186): reject when `network.secured && password.is_none()`, otherwise
invoke nmcli.  `password.unwrap()` is only reached with `password = some p`
and is modelled by `Option.getD`. -/
def connectDecision (n : WifiNetwork) (password : Option String) :
    ConnectAction :=
  if n.secured && password.isNone then .rejectMissingCredential
  else if n.secured then .dispatchSecured n.ssid (password.getD "")
  else .dispatchOpen n.ssid

/-- The password argument the `Connecting` arm of `run_app` builds for
the unwrapped selected network (src/main.rs lines 2123-2127):
`Some(password_input)` whenever the network is secured. -/
def passwordArgFor (n : WifiNetwork) (a : App) : Option String :=
  if n.secured then some a.password_input else none

/-- Merging a connect/disconnect outcome back into the session
(src/main.rs lines 2135-2147): both arms end in `ConnectionResult`. -/
def applyConnectOutcome (a : App) (outcome : Except String Unit) : App :=
  match outcome with
  | .ok _ =>
    { a with
        connection_success := true
        connection_error := none
        status_message := "Connected successfully!"
        state := .ConnectionResult }
  | .error e =>
    { a with
        connection_success := false
        connection_error := some e
        status_message := "Connection failed"
        state := .ConnectionResult }

/-! ### Catalog lemmas: the deduplication invariant -/

/-- No two entries share an ssid. -/
def DistinctSsids (l : List WifiNetwork) : Prop :=
  l.Pairwise (fun a b => a.ssid ≠ b.ssid)

/-- If no entry of `acc` matches `n.ssid`, the update appends `n`. -/
theorem updateUnique_of_forall_ne {acc : List WifiNetwork} {n : WifiNetwork}
    (h : ∀ m ∈ acc, m.ssid ≠ n.ssid) : updateUnique acc n = acc ++ [n] := by
  induction acc with
  | nil => rfl
  | cons m rest ih =>
    have hm : m.ssid ≠ n.ssid := h m (by simp)
    simp only [updateUnique, if_neg hm, List.cons_append, List.cons.injEq,
      true_and]
    exact ih (fun x hx => h x (by simp [hx]))

/-- If some entry of `acc` matches `n.ssid`, the update replaces the first
such entry (by `n` exactly when its frequency is strictly higher). -/
theorem updateUnique_of_mem {acc : List WifiNetwork} {n m : WifiNetwork}
    (hm : m ∈ acc) (hs : m.ssid = n.ssid) :
    ∃ l1 m' l2, acc = l1 ++ m' :: l2 ∧ m'.ssid = n.ssid ∧
      (∀ x ∈ l1, x.ssid ≠ n.ssid) ∧
      updateUnique acc n =
        l1 ++ (if m'.frequency < n.frequency then n else m') :: l2 := by
  induction acc with
  | nil => cases hm
  | cons a rest ih =>
    by_cases h : a.ssid = n.ssid
    · exact ⟨[], a, rest, by simp, h, by simp, by simp [updateUnique, h]⟩
    · have hm' : m ∈ rest := by
        rcases List.mem_cons.mp hm with rfl | h2
        · exact absurd hs h
        · exact h2
      obtain ⟨l1, m', l2, e1, e2, e3, e4⟩ := ih hm'
      refine ⟨a :: l1, m', l2, by simp [e1], e2, ?_, ?_⟩
      · intro x hx
        rcases List.mem_cons.mp hx with rfl | h3
        · exact h
        · exact e3 x h3
      · simp [updateUnique, h, e4]

/-- Invariant of the deduplication fold: the accumulator has pairwise
distinct ssids, each entry is one of the processed observations and has
maximal frequency among processed observations of its ssid, and every
processed observation's ssid is represented. -/
def CatalogInv (processed acc : List WifiNetwork) : Prop :=
  DistinctSsids acc ∧
  (∀ x ∈ acc,
    x ∈ processed ∧
    ∀ y ∈ processed, y.ssid = x.ssid → y.frequency ≤ x.frequency) ∧
  (∀ y ∈ processed, ∃ x ∈ acc, x.ssid = y.ssid)

/-- One deduplication step preserves the invariant. -/
theorem catalogInv_step {processed acc : List WifiNetwork} {n : WifiNetwork}
    (h : CatalogInv processed acc) :
    CatalogInv (processed ++ [n]) (updateUnique acc n) := by
  obtain ⟨hdist, helem, hcov⟩ := h
  by_cases hex : ∃ m ∈ acc, m.ssid = n.ssid
  · obtain ⟨m, hm, hs⟩ := hex
    obtain ⟨l1, m', l2, e1, e2, e3, e4⟩ := updateUnique_of_mem hm hs
    subst e1
    rw [e4]
    set κ := if m'.frequency < n.frequency then n else m' with hκ
    have hκs : κ.ssid = n.ssid := by
      rw [hκ]; split
      · rfl
      · exact e2
    have hdist' := hdist
    rw [DistinctSsids, List.pairwise_append] at hdist'
    obtain ⟨hp1, hp2, hp12⟩ := hdist'
    rw [List.pairwise_cons] at hp2
    obtain ⟨hml2, hpl2⟩ := hp2
    refine ⟨?_, ?_, ?_⟩
    · rw [DistinctSsids, List.pairwise_append, List.pairwise_cons]
      refine ⟨hp1, ⟨?_, hpl2⟩, ?_⟩
      · intro x hx
        rw [hκs, ← e2]
        exact hml2 x hx
      · intro x hx y hy
        rcases List.mem_cons.mp hy with rfl | hy2
        · rw [hκs, ← e2]
          exact hp12 x hx m' (by simp)
        · exact hp12 x hx y (by simp [hy2])
    · intro x hx
      rcases List.mem_append.mp hx with h1 | h1
      · have hxacc : x ∈ l1 ++ m' :: l2 := List.mem_append.mpr (.inl h1)
        obtain ⟨hxp, hxmax⟩ := helem x hxacc
        refine ⟨List.mem_append.mpr (.inl hxp), ?_⟩
        intro y hy hys
        rcases List.mem_append.mp hy with hy1 | hy1
        · exact hxmax y hy1 hys
        · simp only [List.mem_singleton] at hy1
          rw [hy1] at hys
          exact absurd hys.symm (e3 x h1)
      · rcases List.mem_cons.mp h1 with rfl | h2
        · by_cases hf : m'.frequency < n.frequency
          · have hκn : κ = n := by rw [hκ, if_pos hf]
            rw [hκn]
            refine ⟨List.mem_append.mpr (.inr (by simp)), ?_⟩
            intro y hy hys
            rcases List.mem_append.mp hy with hy1 | hy1
            · have hym : y.ssid = m'.ssid := by
                rw [hys, e2]
              have := (helem m' (List.mem_append.mpr
                (.inr (List.mem_cons_self _ _)))).2 y hy1 hym
              omega
            · simp only [List.mem_singleton] at hy1
              rw [hy1]
          · have hκm : κ = m' := by rw [hκ, if_neg hf]
            rw [hκm]
            have hm'acc : m' ∈ l1 ++ m' :: l2 :=
              List.mem_append.mpr (.inr (List.mem_cons_self _ _))
            obtain ⟨hxp, hxmax⟩ := helem m' hm'acc
            refine ⟨List.mem_append.mpr (.inl hxp), ?_⟩
            intro y hy hys
            rcases List.mem_append.mp hy with hy1 | hy1
            · exact hxmax y hy1 hys
            · simp only [List.mem_singleton] at hy1
              rw [hy1]
              omega
        · have hxacc : x ∈ l1 ++ m' :: l2 :=
            List.mem_append.mpr (.inr (List.mem_cons_of_mem _ h2))
          obtain ⟨hxp, hxmax⟩ := helem x hxacc
          refine ⟨List.mem_append.mpr (.inl hxp), ?_⟩
          intro y hy hys
          rcases List.mem_append.mp hy with hy1 | hy1
          · exact hxmax y hy1 hys
          · simp only [List.mem_singleton] at hy1
            rw [hy1] at hys
            exact absurd (e2.trans hys) (hml2 x h2)
    · intro y hy
      rcases List.mem_append.mp hy with hy1 | hy1
      · obtain ⟨x, hx, hxs⟩ := hcov y hy1
        rcases List.mem_append.mp hx with h1 | h1
        · exact ⟨x, List.mem_append.mpr (.inl h1), hxs⟩
        · rcases List.mem_cons.mp h1 with rfl | h2
          · refine ⟨κ, List.mem_append.mpr (.inr (List.mem_cons_self _ _)), ?_⟩
            rw [hκs, ← e2]
            exact hxs
          · exact ⟨x, List.mem_append.mpr (.inr (List.mem_cons_of_mem _ h2)),
              hxs⟩
      · simp only [List.mem_singleton] at hy1
        rw [hy1]
        exact ⟨κ, List.mem_append.mpr (.inr (List.mem_cons_self _ _)), hκs⟩
  · push_neg at hex
    rw [updateUnique_of_forall_ne hex]
    refine ⟨?_, ?_, ?_⟩
    · rw [DistinctSsids, List.pairwise_append]
      refine ⟨hdist, by simp, ?_⟩
      intro a ha b hb
      simp only [List.mem_singleton] at hb
      rw [hb]
      exact hex a ha
    · intro x hx
      rcases List.mem_append.mp hx with h1 | h1
      · obtain ⟨hxp, hxmax⟩ := helem x h1
        refine ⟨List.mem_append.mpr (.inl hxp), ?_⟩
        intro y hy hys
        rcases List.mem_append.mp hy with hy1 | hy1
        · exact hxmax y hy1 hys
        · simp only [List.mem_singleton] at hy1
          rw [hy1] at hys
          exact absurd hys.symm (hex x h1)
      · simp only [List.mem_singleton] at h1
        rw [h1]
        refine ⟨List.mem_append.mpr (.inr (by simp)), ?_⟩
        intro y hy hys
        rcases List.mem_append.mp hy with hy1 | hy1
        · obtain ⟨z, hz, hzs⟩ := hcov y hy1
          exact absurd (hzs.trans hys) (hex z hz)
        · simp only [List.mem_singleton] at hy1
          rw [hy1]
    · intro y hy
      rcases List.mem_append.mp hy with hy1 | hy1
      · obtain ⟨x, hx, hxs⟩ := hcov y hy1
        exact ⟨x, List.mem_append.mpr (.inl hx), hxs⟩
      · simp only [List.mem_singleton] at hy1
        rw [hy1]
        exact ⟨n, List.mem_append.mpr (.inr (by simp)), rfl⟩

/-- The invariant propagates through the deduplication fold. -/
theorem catalogInv_fold :
    ∀ (l processed acc : List WifiNetwork), CatalogInv processed acc →
      CatalogInv (processed ++ l) (l.foldl updateUnique acc)
  | [], processed, acc, h => by simpa using h
  | n :: l, processed, acc, h => by
    have h2 := catalogInv_fold l (processed ++ [n]) (updateUnique acc n)
      (catalogInv_step h)
    simpa [List.foldl, List.append_assoc] using h2

/-- The deduplicated catalog satisfies the invariant for the full input. -/
theorem catalogInv_dedup (l : List WifiNetwork) :
    CatalogInv l (dedupByFrequency l) := by
  have h := catalogInv_fold l [] [] ⟨List.Pairwise.nil, by simp, by simp⟩
  simpa [dedupByFrequency] using h

/-- Sorting permutes the deduplicated catalog. -/
theorem reconcile_perm (cs : Option String) (obs : List RawObservation) :
    (reconcile cs obs).Perm (dedupByFrequency (observedNetworks cs obs)) :=
  List.perm_insertionSort netLE _

/-- Membership in the reconciled catalog. -/
theorem mem_reconcile {cs : Option String} {obs : List RawObservation}
    {e : WifiNetwork} :
    e ∈ reconcile cs obs ↔ e ∈ dedupByFrequency (observedNetworks cs obs) :=
  (reconcile_perm cs obs).mem_iff

/-- The reconciled catalog is sorted by the comparator. -/
theorem reconcile_sorted (cs : Option String) (obs : List RawObservation) :
    List.Sorted netLE (reconcile cs obs) :=
  List.sorted_insertionSort netLE _

/-- The reconciled catalog has pairwise distinct ssids. -/
theorem reconcile_distinct (cs : Option String) (obs : List RawObservation) :
    DistinctSsids (reconcile cs obs) := by
  have hd := (catalogInv_dedup (observedNetworks cs obs)).1
  exact ((reconcile_perm cs obs).pairwise_iff (fun h => Ne.symm h)).mpr hd

/-- Unfolding membership in the filtered, tagged observation list. -/
theorem mem_observedNetworks {cs : Option String} {obs : List RawObservation}
    {e : WifiNetwork} :
    e ∈ observedNetworks cs obs ↔
      ∃ o ∈ obs, o.ssid.isEmpty = false ∧ e = toNetwork cs o := by
  constructor
  · intro h
    obtain ⟨o, ho, rfl⟩ := List.mem_map.mp h
    have h2 := List.mem_filter.mp ho
    exact ⟨o, h2.1, by simpa using h2.2, rfl⟩
  · rintro ⟨o, ho, hne, rfl⟩
    exact List.mem_map.mpr ⟨o, List.mem_filter.mpr ⟨ho, by simpa using hne⟩,
      rfl⟩

/-- Every reconciled entry's connected flag records whether its ssid is
the currently associated one. -/
theorem connected_of_mem_reconcile {cs : Option String}
    {obs : List RawObservation} {e : WifiNetwork}
    (he : e ∈ reconcile cs obs) :
    e.connected = decide (cs = some e.ssid) := by
  have h1 := ((catalogInv_dedup (observedNetworks cs obs)).2.1 e
    (mem_reconcile.mp he)).1
  obtain ⟨o, _, _, rfl⟩ := mem_observedNetworks.mp h1
  rfl

/-- C1: Catalog reconciliation — for every input list of raw observations
and every optional currently-associated ssid, the reconciled output has
pairwise distinct ssids; every entry comes from an observation with a
nonempty ssid (empty-ssid observations are discarded); each entry's
frequency is maximal among the input observations of its ssid; and every
nonempty-ssid observation's ssid survives. -/
theorem catalog_reconciliation (cs : Option String)
    (obs : List RawObservation) :
    (reconcile cs obs).Pairwise (fun a b => a.ssid ≠ b.ssid) ∧
    (∀ e ∈ reconcile cs obs, ∃ o ∈ obs,
      o.ssid.isEmpty = false ∧ e = toNetwork cs o) ∧
    (∀ e ∈ reconcile cs obs, ∀ o ∈ obs,
      o.ssid = e.ssid → o.frequency ≤ e.frequency) ∧
    (∀ o ∈ obs, o.ssid.isEmpty = false →
      ∃ e ∈ reconcile cs obs, e.ssid = o.ssid) := by
  obtain ⟨hdist, helem, hcov⟩ := catalogInv_dedup (observedNetworks cs obs)
  refine ⟨reconcile_distinct cs obs, ?_, ?_, ?_⟩
  · intro e he
    exact mem_observedNetworks.mp ((helem e (mem_reconcile.mp he)).1)
  · intro e he o ho hos
    obtain ⟨o', ho', hne', he'⟩ :=
      mem_observedNetworks.mp ((helem e (mem_reconcile.mp he)).1)
    have hnonempty : o.ssid.isEmpty = false := by
      have h2 : e.ssid.isEmpty = false := by
        rw [he']
        simpa [toNetwork] using hne'
      rw [hos]
      exact h2
    have hmem : toNetwork cs o ∈ observedNetworks cs obs :=
      mem_observedNetworks.mpr ⟨o, ho, hnonempty, rfl⟩
    have h3 := (helem e (mem_reconcile.mp he)).2 (toNetwork cs o) hmem
      (by simpa [toNetwork] using hos)
    simpa [toNetwork] using h3
  · intro o ho hne
    obtain ⟨x, hx, hxs⟩ := hcov (toNetwork cs o)
      (mem_observedNetworks.mpr ⟨o, ho, hne, rfl⟩)
    exact ⟨x, mem_reconcile.mpr hx, by simpa [toNetwork] using hxs⟩

/-- The spec's reconciliation scenario: the two `A` observations collapse
to the 5180 MHz one and `B` ranks first by signal. -/
def oA40 : RawObservation := ⟨"A", false, 40, 2412⟩

/-- Scenario observation `{B, 90, true, 5200}`. -/
def oB90 : RawObservation := ⟨"B", true, 90, 5200⟩

/-- Scenario observation `{A, 70, false, 5180}`. -/
def oA70 : RawObservation := ⟨"A", false, 70, 5180⟩

/-- The scenario input list. -/
def scenarioObs : List RawObservation := [oA40, oB90, oA70]

/-- The scenario evaluates exactly as the spec says:
`[B(90), A(70)]` with A's 5180 MHz observation winning. -/
theorem reconcile_scenario :
    reconcile none scenarioObs = [toNetwork none oB90, toNetwork none oA70] :=
  by decide

/-- Witness for C1 at the spec's scenario: the surviving `A` entry is the
5180 MHz observation and dominates the 2412 MHz duplicate. -/
theorem catalog_reconciliation_witness :
    (∃ o ∈ scenarioObs, o.ssid.isEmpty = false ∧
      toNetwork none oA70 = toNetwork none o) ∧
    oA40.frequency ≤ (toNetwork none oA70).frequency := by
  have h := catalog_reconciliation none scenarioObs
  have hmem : toNetwork none oA70 ∈ reconcile none scenarioObs := by decide
  exact ⟨h.2.1 _ hmem, h.2.2.1 _ hmem oA40 (by decide) (by decide)⟩

/-- Pairwise monotonicity with membership available. -/
theorem pairwise_mono_mem {R S : WifiNetwork → WifiNetwork → Prop} :
    ∀ {l : List WifiNetwork},
      (∀ a ∈ l, ∀ b ∈ l, R a b → S a b) → l.Pairwise R → l.Pairwise S := by
  intro l
  induction l with
  | nil => intro _ _; exact .nil
  | cons x xs ih =>
    intro h hp
    rcases List.pairwise_cons.mp hp with ⟨h1, h2⟩
    refine List.pairwise_cons.mpr ⟨?_, ?_⟩
    · intro b hb
      exact h x (by simp) b (by simp [hb]) (h1 b hb)
    · exact ih (fun a ha b hb => h a (by simp [ha]) b (by simp [hb])) h2

/-- In a catalog sorted by the scan comparator in which any two connected
entries share an ssid and ssids are distinct, a connected entry can only
sit at the head, and the rest are non-increasing in signal strength. -/
theorem ordering_of_sorted_distinct {L : List WifiNetwork}
    (hs : List.Sorted netLE L)
    (hconn : ∀ e1 ∈ L, ∀ e2 ∈ L,
      e1.connected = true → e2.connected = true → e1.ssid = e2.ssid)
    (hd : DistinctSsids L) :
    (∀ e ∈ L, e.connected = true → L.head? = some e) ∧
    (remaining L).Pairwise
      (fun a b => b.signal_strength ≤ a.signal_strength) := by
  cases L with
  | nil => simp [remaining]
  | cons h t =>
    rw [List.sorted_cons] at hs
    obtain ⟨hht, hst⟩ := hs
    rw [DistinctSsids, List.pairwise_cons] at hd
    obtain ⟨hdh, _⟩ := hd
    have htconn : ∀ e ∈ t, e.connected = true → h.connected = true → False :=
      fun e he hec hhc =>
        hdh e he (hconn h (by simp) e (by simp [he]) hhc hec)
    have hnotconn : ∀ e ∈ t, h.connected = false → e.connected = false := by
      intro e he hhc
      cases hec : e.connected
      · rfl
      · exfalso
        have hle := hht e he
        unfold netLE netLEb at hle
        rw [hhc, hec] at hle
        simp at hle
    constructor
    · intro e he hec
      rcases List.mem_cons.mp he with rfl | he2
      · rfl
      · exfalso
        cases hhc : h.connected
        · have hle := hht e he2
          unfold netLE netLEb at hle
          rw [hhc, hec] at hle
          simp at hle
        · exact htconn e he2 hec hhc
    · cases hhc : h.connected
      · have hrem : remaining (h :: t) = h :: t := by simp [remaining, hhc]
        rw [hrem]
        have hallnc : ∀ e ∈ h :: t, e.connected = false := by
          intro e he
          rcases List.mem_cons.mp he with rfl | he2
          · exact hhc
          · exact hnotconn e he2 hhc
        have hp : (h :: t).Pairwise netLE :=
          List.pairwise_cons.mpr ⟨hht, hst⟩
        refine pairwise_mono_mem ?_ hp
        intro a ha b hb hab
        have ha2 := hallnc a ha
        have hb2 := hallnc b hb
        unfold netLE netLEb at hab
        rw [ha2, hb2] at hab
        simpa using hab
      · have hrem : remaining (h :: t) = t := by simp [remaining, hhc]
        rw [hrem]
        have halln : ∀ e ∈ t, e.connected = false := by
          intro e he
          cases hec : e.connected
          · rfl
          · exact (htconn e he hec hhc).elim
        refine pairwise_mono_mem ?_ hst
        intro a ha b hb hab
        have ha2 := halln a ha
        have hb2 := halln b hb
        unfold netLE netLEb at hab
        rw [ha2, hb2] at hab
        simpa using hab

/-- C2: Canonical ordering — in every reconciled catalog, an entry with
`connected = true` can only be the first one, and the remaining entries
are non-increasing in `signal_strength` from front to back. -/
theorem canonical_ordering (cs : Option String) (obs : List RawObservation) :
    (∀ e ∈ reconcile cs obs, e.connected = true →
      (reconcile cs obs).head? = some e) ∧
    (remaining (reconcile cs obs)).Pairwise
      (fun a b => b.signal_strength ≤ a.signal_strength) := by
  refine ordering_of_sorted_distinct (reconcile_sorted cs obs) ?_
    (reconcile_distinct cs obs)
  intro e1 h1 e2 h2 hc1 hc2
  have g1 := connected_of_mem_reconcile h1
  have g2 := connected_of_mem_reconcile h2
  have d1 : cs = some e1.ssid := of_decide_eq_true (g1.symm.trans hc1)
  have d2 : cs = some e2.ssid := of_decide_eq_true (g2.symm.trans hc2)
  exact Option.some.inj (d1.symm.trans d2)

/-- Witness for C2: with `B` currently associated in the spec scenario,
the connected `B` entry is the head of the reconciled catalog. -/
theorem canonical_ordering_witness :
    (reconcile (some "B") scenarioObs).head? =
      some (toNetwork (some "B") oB90) :=
  (canonical_ordering (some "B") scenarioObs).1 _ (by decide) (by decide)

/-- `position` fails exactly on lists with no match. -/
theorem position_eq_none {p : WifiNetwork → Bool} :
    ∀ {l : List WifiNetwork}, position p l = none → ∀ x ∈ l, p x = false := by
  intro l
  induction l with
  | nil => intro _ x hx; cases hx
  | cons a as ih =>
    intro h x hx
    by_cases hpa : p a = true
    · simp [position, hpa] at h
    · rcases List.mem_cons.mp hx with rfl | hx2
      · simpa using hpa
      · have h2 : position p as = none := by
          simp only [position, if_neg hpa] at h
          cases hpos : position p as
          · rfl
          · rw [hpos] at h
            simp at h
        exact ih h2 x hx2

/-- A successful `position` points at a matching element. -/
theorem position_eq_some {p : WifiNetwork → Bool} :
    ∀ {l : List WifiNetwork} {i : Nat}, position p l = some i →
      ∃ e, l.get? i = some e ∧ p e = true := by
  intro l
  induction l with
  | nil => intro i h; simp [position] at h
  | cons a as ih =>
    intro i h
    by_cases hpa : p a = true
    · simp only [position, if_pos hpa, Option.some.injEq] at h
      rw [← h]
      exact ⟨a, rfl, hpa⟩
    · simp only [position, if_neg hpa] at h
      rcases Option.map_eq_some'.mp h with ⟨j, hj, hji⟩
      obtain ⟨e, he, hpe⟩ := ih hj
      rw [← hji]
      exact ⟨e, by simpa using he, hpe⟩

/-- A matching element makes `position` succeed. -/
theorem position_of_mem {p : WifiNetwork → Bool} :
    ∀ {l : List WifiNetwork}, (∃ x ∈ l, p x = true) →
      ∃ i, position p l = some i := by
  intro l
  induction l with
  | nil =>
    rintro ⟨x, hx, _⟩
    cases hx
  | cons a as ih =>
    rintro ⟨x, hx, hpx⟩
    by_cases hpa : p a = true
    · exact ⟨0, by simp [position, hpa]⟩
    · rcases List.mem_cons.mp hx with rfl | hx2
      · exact absurd hpx hpa
      · obtain ⟨i, hi⟩ := ih ⟨x, hx2, hpx⟩
        exact ⟨i + 1, by simp [position, hpa, hi]⟩

/-- Evaluation of the rescan-selection update when the remembered ssid is
found at index `i`. -/
theorem update_selection_found {a : App} {sn : WifiNetwork} {i : Nat}
    (h : a.selected_network = some sn)
    (hp : position (fun n => n.ssid == sn.ssid) a.networks = some i) :
    a.update_selection_after_rescan =
      { a with
          selected_index := i
          list_selected := some i
          selected_network := none } := by
  simp only [App.update_selection_after_rescan, h, hp]

/-- Evaluation of the rescan-selection update when the remembered ssid is
absent from the new catalog. -/
theorem update_selection_not_found {a : App} {sn : WifiNetwork}
    (h : a.selected_network = some sn)
    (hp : position (fun n => n.ssid == sn.ssid) a.networks = none) :
    a.update_selection_after_rescan =
      { a with
          selected_index := 0
          list_selected := some 0
          selected_network := none } := by
  simp only [App.update_selection_after_rescan, h, hp]

/-- C3: Selection-preserving rescan — with a remembered selected network,
the update discards the memory, re-locates the cursor onto an entry with
the remembered ssid when one exists, and resets it to 0 otherwise. -/
theorem selection_preserving_rescan (a : App) (sn : WifiNetwork)
    (h : a.selected_network = some sn) :
    (a.update_selection_after_rescan).selected_network = none ∧
    ((∀ e ∈ a.networks, e.ssid ≠ sn.ssid) →
      (a.update_selection_after_rescan).selected_index = 0 ∧
      (a.update_selection_after_rescan).list_selected = some 0) ∧
    (∀ e ∈ a.networks, e.ssid = sn.ssid →
      ∃ i e', (a.update_selection_after_rescan).selected_index = i ∧
        (a.update_selection_after_rescan).list_selected = some i ∧
        a.networks.get? i = some e' ∧ e'.ssid = sn.ssid) := by
  refine ⟨?_, ?_, ?_⟩
  · cases hp : position (fun n => n.ssid == sn.ssid) a.networks with
    | none => rw [update_selection_not_found h hp]
    | some i => rw [update_selection_found h hp]
  · intro hall
    cases hp : position (fun n => n.ssid == sn.ssid) a.networks with
    | none =>
      rw [update_selection_not_found h hp]
      exact ⟨rfl, rfl⟩
    | some i =>
      exfalso
      obtain ⟨e', he', hpe⟩ := position_eq_some hp
      exact hall e' (List.get?_mem he') (by simpa using hpe)
  · intro e he hes
    obtain ⟨i, hp⟩ := @position_of_mem (fun n => n.ssid == sn.ssid) a.networks
      ⟨e, he, by simpa using hes⟩
    obtain ⟨e', he', hpe⟩ := position_eq_some hp
    rw [update_selection_found h hp]
    exact ⟨i, e', rfl, rfl, he', by simpa using hpe⟩

/-- A session whose remembered selection is the scenario `A` entry. -/
def appC3 : App :=
  { App.new with
      networks := [toNetwork none oB90, toNetwork none oA70]
      selected_network := some (toNetwork none oA70) }

/-- Witness for C3: the cursor lands on an index holding the remembered
ssid. -/
theorem selection_preserving_rescan_witness :
    ∃ i e', (appC3.update_selection_after_rescan).selected_index = i ∧
      (appC3.update_selection_after_rescan).list_selected = some i ∧
      appC3.networks.get? i = some e' ∧
      e'.ssid = (toNetwork none oA70).ssid :=
  (selection_preserving_rescan appC3 (toNetwork none oA70) rfl).2.2
    (toNetwork none oA70) (by decide) rfl

/-- A session sitting in the network list with one (non-connected) entry
under the cursor and no remembered selection. -/
def appC4 : App :=
  { App.new with
      state := .NetworkList
      networks := [toNetwork none oB90]
      selected_index := 0
      list_selected := some 0 }

/-- Counterexample to C4 as stated: the rescan request clears the catalog
and enters Scanning, but does NOT remember the network under the cursor —
`selected_network` stays `none` although the cursor points at an entry. -/
theorem rescan_request_counterexample :
    (handleNetworkListKey appC4 0 (.char 'r')).state = AppState.Scanning ∧
    (handleNetworkListKey appC4 0 (.char 'r')).networks = [] ∧
    appC4.networks.get? appC4.selected_index = some (toNetwork none oB90) ∧
    (handleNetworkListKey appC4 0 (.char 'r')).selected_network ≠
      some (toNetwork none oB90) := by
  decide

/-- C4 (amended): a rescan request from NetworkList transitions to
Scanning with the catalog cleared and the status updated, and leaves
`pending_selection` (`selected_network`) unchanged — the cursor's network
is not remembered by this handler. -/
theorem rescan_request (a : App) (now : Nat) :
    (handleNetworkListKey a now (.char 'r')).state = AppState.Scanning ∧
    (handleNetworkListKey a now (.char 'r')).networks = [] ∧
    (handleNetworkListKey a now (.char 'r')).selected_network =
      a.selected_network ∧
    (handleNetworkListKey a now (.char 'r')).status_message =
      "Scanning for networks..." :=
  ⟨rfl, rfl, rfl, rfl⟩

/-- A secured network used in the missing-credential analysis. -/
def nSecured : WifiNetwork :=
  { ssid := "Net"
    signal_strength := 50
    secured := true
    frequency := 2412
    connected := false }

/-- A session in `Connecting` with the secured network selected and an
empty credential buffer. -/
def appC5 : App :=
  { App.new with
      state := .Connecting
      selected_network := some nSecured
      password_input := "" }

/-- Counterexample to C5 as stated: with an empty (rather than absent)
password, the loop passes `Some("")`, so the backend IS dispatched (with
an empty psk) instead of rejecting, and a failing outcome lands the
session in `ConnectionResult`, not `PasswordInput`. -/
theorem missing_credential_counterexample :
    connectDecision nSecured (passwordArgFor nSecured appC5) =
      ConnectAction.dispatchSecured "Net" "" ∧
    connectDecision nSecured (passwordArgFor nSecured appC5) ≠
      ConnectAction.rejectMissingCredential ∧
    (applyConnectOutcome appC5
      (Except.error "nmcli activation failed: x")).state =
      AppState.ConnectionResult := by
  decide

/-- C5 (amended): `connect_to_network` rejects a secured network only
when the password is absent (`None`) — and then without invoking the
backend; the event loop, however, always passes `Some(password_input)`
for a secured network, so an empty buffer is dispatched as an empty psk;
and every connect outcome is routed to `ConnectionResult`, never back to
`PasswordInput`. -/
theorem missing_credential (n : WifiNetwork) (hsec : n.secured = true) :
    connectDecision n none = ConnectAction.rejectMissingCredential ∧
    (∀ a : App, connectDecision n (passwordArgFor n a) =
      ConnectAction.dispatchSecured n.ssid a.password_input) ∧
    (∀ (a : App) (outcome : Except String Unit),
      (applyConnectOutcome a outcome).state = AppState.ConnectionResult) := by
  refine ⟨by simp [connectDecision, hsec], ?_, ?_⟩
  · intro a
    simp [connectDecision, passwordArgFor, hsec]
  · intro a outcome
    cases outcome <;> rfl

/-- Witness for C5 (amended) at the concrete secured network. -/
theorem missing_credential_witness :
    connectDecision nSecured none = ConnectAction.rejectMissingCredential ∧
    (applyConnectOutcome appC5 (Except.ok ())).state =
      AppState.ConnectionResult :=
  ⟨(missing_credential nSecured rfl).1,
   (missing_credential nSecured rfl).2.2 appC5 (Except.ok ())⟩

/-- The connected network of the C6 analysis. -/
def nConn : WifiNetwork :=
  { ssid := "Home"
    signal_strength := 80
    secured := true
    frequency := 5180
    connected := true }

/-- A session in the network list with the connected entry under the
cursor and no operation timer running. -/
def appC6 : App :=
  { App.new with
      state := .NetworkList
      networks := [nConn]
      selected_index := 0
      list_selected := some 0 }

/-- Counterexample to C6 as stated: selecting the connected entry enters
Disconnecting and records the selection, but does NOT set the operation
timer — `connection_start_time` stays `none`. -/
theorem select_connected_counterexample :
    (appC6.select_network 7).state = AppState.Disconnecting ∧
    (appC6.select_network 7).selected_network = some nConn ∧
    appC6.connection_start_time = none ∧
    (appC6.select_network 7).connection_start_time = none := by
  decide

/-- C6 (amended): selecting a catalog entry whose connected flag is true
transitions to Disconnecting, records the entry as the selected network
and marks the operation as a disconnect; the operation timer is left
unchanged (only the separate d-key disconnect path sets it). -/
theorem select_connected (a : App) (n : WifiNetwork) (now : Nat)
    (hn : a.networks.get? a.selected_index = some n)
    (hc : n.connected = true) :
    (a.select_network now).state = AppState.Disconnecting ∧
    (a.select_network now).selected_network = some n ∧
    (a.select_network now).is_disconnect_operation = true ∧
    (a.select_network now).connection_start_time =
      a.connection_start_time := by
  unfold App.select_network
  rw [hn]
  simp [hc]

/-- Witness for C6 (amended) at the concrete session. -/
theorem select_connected_witness :
    (appC6.select_network 7).state = AppState.Disconnecting ∧
    (appC6.select_network 7).selected_network = some nConn ∧
    (appC6.select_network 7).is_disconnect_operation = true ∧
    (appC6.select_network 7).connection_start_time =
      appC6.connection_start_time :=
  select_connected appC6 nConn 7 (by decide) (by decide)

/-- C7: acknowledging a ConnectionResult resets the success flag, the
error detail, the credential buffer and the operation timer, retains the
previously selected network reference, and re-enters Scanning with the
catalog cleared. -/
theorem ack_connection_result (a : App) :
    (handleConnectionResultKey a .enter).connection_success = false ∧
    (handleConnectionResultKey a .enter).connection_error = none ∧
    (handleConnectionResultKey a .enter).password_input = "" ∧
    (handleConnectionResultKey a .enter).connection_start_time = none ∧
    (handleConnectionResultKey a .enter).selected_network =
      a.selected_network ∧
    (handleConnectionResultKey a .enter).state = AppState.Scanning ∧
    (handleConnectionResultKey a .enter).networks = [] :=
  ⟨rfl, rfl, rfl, rfl, rfl, rfl, rfl⟩

/-- Counterexample to C8 as stated: a reachable session (initial state,
one completed scan with two networks, one cursor move down, then a rescan
request) has an empty catalog with the cursor still at index 1, violating
"cursor is 0 whenever the catalog is empty". -/
theorem cursor_invariant_counterexample :
    (handleNetworkListKey
      ((scanStep App.new [toNetwork none oB90, toNetwork none oA70]
        none 0).next) 0 (.char 'r')).networks = [] ∧
    (handleNetworkListKey
      ((scanStep App.new [toNetwork none oB90, toNetwork none oA70]
        none 0).next) 0 (.char 'r')).selected_index = 1 := by
  decide

/-- C8 (amended): navigation keeps the cursor inside `[0, len-1]` on a
nonempty catalog (and keeps both cursor copies in sync), but the
invariant is NOT preserved by catalog replacement: a rescan request
clears the catalog while leaving the cursor at its old value. -/
theorem cursor_bounds_navigation (a : App) (i : Nat)
    (h : a.networks ≠ []) (hi : a.list_selected = some i)
    (hlt : i < a.networks.length) :
    (a.next).selected_index < a.networks.length ∧
    (a.next).list_selected = some (a.next).selected_index ∧
    (a.previous).selected_index < a.networks.length ∧
    (a.previous).list_selected = some (a.previous).selected_index := by
  have hne : a.networks.isEmpty = false := by
    cases hn : a.networks
    · exact absurd hn h
    · rfl
  have hpos : 0 < a.networks.length := List.length_pos.mpr h
  refine ⟨?_, ?_, ?_, ?_⟩
  · simp only [App.next, hne, Bool.false_eq_true, if_false, hi]
    split <;> omega
  · simp [App.next, hne, hi]
  · simp only [App.previous, hne, Bool.false_eq_true, if_false, hi]
    split <;> omega
  · simp [App.previous, hne, hi]

/-- Witness for C8 (amended) on a concrete two-entry catalog. -/
theorem cursor_bounds_navigation_witness :
    (appC3.next).selected_index < appC3.networks.length ∧
    (appC3.next).list_selected = some (appC3.next).selected_index ∧
    (appC3.previous).selected_index < appC3.networks.length ∧
    (appC3.previous).list_selected = some (appC3.previous).selected_index :=
  cursor_bounds_navigation appC3 0 (by decide) rfl (by decide)

/-- C9: navigation wraps circularly — `next` on the last index moves the
cursor to 0, `previous` on index 0 moves it to the last index, and both
leave the session unchanged on an empty catalog. -/
theorem navigation_wraps (a : App) :
    (a.networks = [] → a.next = a ∧ a.previous = a) ∧
    (a.networks ≠ [] → a.list_selected = some (a.networks.length - 1) →
      (a.next).selected_index = 0 ∧ (a.next).list_selected = some 0) ∧
    (a.networks ≠ [] → a.list_selected = some 0 →
      (a.previous).selected_index = a.networks.length - 1 ∧
      (a.previous).list_selected = some (a.networks.length - 1)) := by
  refine ⟨?_, ?_, ?_⟩
  · intro h
    have hne : a.networks.isEmpty = true := by simp [h]
    constructor <;> simp [App.next, App.previous, hne]
  · intro h hi
    have hne : a.networks.isEmpty = false := by
      cases hn : a.networks
      · exact absurd hn h
      · rfl
    constructor <;> simp [App.next, hne, hi]
  · intro h hi
    have hne : a.networks.isEmpty = false := by
      cases hn : a.networks
      · exact absurd hn h
      · rfl
    constructor <;> simp [App.previous, hne, hi]

/-- The two-entry session with the cursor on the last index. -/
def appC9 : App :=
  { appC3 with list_selected := some 1, selected_index := 1 }

/-- Witness for C9: all three behaviors at concrete sessions — no-op on
the empty initial session, `next` wraps from the last index, `previous`
wraps from index 0. -/
theorem navigation_wraps_witness :
    (App.new.next = App.new ∧ App.new.previous = App.new) ∧
    ((appC9.next).selected_index = 0 ∧
      (appC9.next).list_selected = some 0) ∧
    ((appC3.previous).selected_index = appC3.networks.length - 1 ∧
      (appC3.previous).list_selected = some (appC3.networks.length - 1)) :=
  ⟨(navigation_wraps App.new).1 rfl,
   (navigation_wraps appC9).2.1 (by decide) rfl,
   (navigation_wraps appC3).2.2 (by decide) rfl⟩

/-- C10: when the cursor points at no catalog entry (in particular on an
empty catalog), `select_network` leaves the phase, the selected-network
reference and the credential buffer unchanged. -/
theorem select_no_cursor (a : App) (now : Nat)
    (h : a.networks.get? a.selected_index = none) :
    (a.select_network now).state = a.state ∧
    (a.select_network now).selected_network = a.selected_network ∧
    (a.select_network now).password_input = a.password_input := by
  unfold App.select_network
  rw [h]
  exact ⟨rfl, rfl, rfl⟩

/-- Witness for C10 at the initial (empty-catalog) session. -/
theorem select_no_cursor_witness :
    (App.new.select_network 0).state = App.new.state ∧
    (App.new.select_network 0).selected_network =
      App.new.selected_network ∧
    (App.new.select_network 0).password_input = App.new.password_input :=
  select_no_cursor App.new 0 rfl
